import Mathlib

/-!
# AutoPilotK8s: event bridge and controller loop

A shallow embedding of `main.go`.  The controller registers three informer
handlers that turn notifications into work-queue keys, and `Run` pulls keys
from the queue until the queue reports shutdown.

The informer, the key function `cache.MetaNamespaceKeyFunc` and the work queue
come from client-go.  The program's own code is embedded as functions that
produce the sequence of observable calls (`Event`) they make; the results the
environment hands back (the key function's result, the outcome of
`cache.WaitForCacheSync`, the successive results of `queue.Get`) are inputs.
-/

namespace AutoPilot

/-- An observable call made by the program, in program order. -/
inductive Event where
  /-- Text written by `fmt.Println` / `fmt.Printf`. -/
  | stdout (text : String)
  /-- The statement `go c.informer.Run(stopCh)`. -/
  | informerRun
  /-- A call `cache.WaitForCacheSync(stopCh, c.informer.HasSynced)` and its result. -/
  | waitForCacheSync (synced : Bool)
  /-- A call `log.Fatalf(msg)`: writes a log line and exits the process with status 1. -/
  | logFatalf (msg : String)
  /-- A call `queue.Add(key)`. -/
  | queueAdd (key : String)
  /-- A call `queue.Get()` that returned `(key, shutdown)`. -/
  | queueGet (key : String) (shutdown : Bool)
  /-- A call `queue.Done(key)`. -/
  | queueDone (key : String)
  /-- A call `queue.Forget(key)` (part of `workqueue.RateLimitingInterface`). -/
  | queueForget (key : String)
  /-- A call `queue.AddRateLimited(key)` (part of `workqueue.RateLimitingInterface`). -/
  | queueAddRateLimited (key : String)
  /-- A call `queue.ShutDown()`. -/
  | queueShutDown
  deriving DecidableEq, Repr

/-- The event is a call on the work queue. -/
def Event.isQueueCall : Event → Bool
  | .queueAdd _ => true
  | .queueGet _ _ => true
  | .queueDone _ => true
  | .queueForget _ => true
  | .queueAddRateLimited _ => true
  | .queueShutDown => true
  | _ => false

/-- The event writes to the log (package `log`). -/
def Event.isLog : Event → Bool
  | .logFatalf _ => true
  | _ => false

/-- A Go `error` value; `none` is `nil`. -/
abbrev GoError := Option String

/-! ## Event handlers registered by `NewAutoPilotController` -/

section Handlers

variable {Obj : Type}

/-- The `AddFunc` closure: `key, err := cache.MetaNamespaceKeyFunc(obj)`,
then `queue.Add(key)` when `err == nil`. -/
def AddFunc (MetaNamespaceKeyFunc : Obj → String × GoError) (obj : Obj) : List Event :=
  match MetaNamespaceKeyFunc obj with
  | (key, none) => [Event.queueAdd key]
  | (_, some _) => []

/-- The `UpdateFunc` closure: the key is taken from `newObj`. -/
def UpdateFunc (MetaNamespaceKeyFunc : Obj → String × GoError) (_oldObj newObj : Obj) :
    List Event :=
  match MetaNamespaceKeyFunc newObj with
  | (key, none) => [Event.queueAdd key]
  | (_, some _) => []

/-- The `DeleteFunc` closure. -/
def DeleteFunc (MetaNamespaceKeyFunc : Obj → String × GoError) (obj : Obj) : List Event :=
  match MetaNamespaceKeyFunc obj with
  | (key, none) => [Event.queueAdd key]
  | (_, some _) => []

/-- A notification delivered by the informer to the registered handlers. -/
inductive Notification (Obj : Type) where
  | added (obj : Obj)
  | updated (oldObj newObj : Obj)
  | deleted (obj : Obj)

/-- Dispatch of a notification to the handler registered for it
(`cache.ResourceEventHandlerFuncs`). -/
def Notification.handle (MetaNamespaceKeyFunc : Obj → String × GoError) :
    Notification Obj → List Event
  | .added obj => AddFunc MetaNamespaceKeyFunc obj
  | .updated oldObj newObj => UpdateFunc MetaNamespaceKeyFunc oldObj newObj
  | .deleted obj => DeleteFunc MetaNamespaceKeyFunc obj

/-- The object whose identity a notification carries to the key function. -/
def Notification.subject : Notification Obj → Obj
  | .added obj => obj
  | .updated _ newObj => newObj
  | .deleted obj => obj

end Handlers

/-! ## An abstract work queue, to replay queue calls on a queue state -/

/-- The state change each call of `workqueue.RateLimitingInterface` makes on a
queue state of type `Q`.  `Get` is the state change of a `Get` call; the value
it returned is recorded in the event. -/
structure QueueOps (Q : Type) where
  Add : String → Q → Q
  Get : Q → Q
  Done : String → Q → Q
  Forget : String → Q → Q
  AddRateLimited : String → Q → Q
  ShutDown : Q → Q

/-- The effect of one event on the queue state. -/
def QueueOps.apply {Q : Type} (ops : QueueOps Q) (q : Q) : Event → Q
  | .queueAdd key => ops.Add key q
  | .queueGet _ _ => ops.Get q
  | .queueDone key => ops.Done key q
  | .queueForget key => ops.Forget key q
  | .queueAddRateLimited key => ops.AddRateLimited key q
  | .queueShutDown => ops.ShutDown q
  | _ => q

/-- The effect of a sequence of events on the queue state. -/
def QueueOps.replay {Q : Type} (ops : QueueOps Q) (events : List Event) (q : Q) : Q :=
  events.foldl ops.apply q

/-! ## `AutoPilotController.Run` -/

/-- How an execution of `Run` ends. -/
inductive Outcome where
  /-- `Run` returned to its caller (after its deferred call). -/
  | returned
  /-- The process was terminated by `log.Fatalf` with the given exit status;
  deferred calls do not run. -/
  | exited (status : Nat)
  /-- `Run` is waiting inside `queue.Get()` for a result. -/
  | blocked
  deriving DecidableEq, Repr

/-- The `for` loop of `Run` over the successive results of `queue.Get()`.
Returns the calls made and whether the loop was left by `break`; when the
results run out the loop is waiting in `Get`. -/
def workLoop : List (String × Bool) → List Event × Bool
  | [] => ([], false)
  | (key, shutdown) :: rest =>
    if shutdown then
      ([Event.queueGet key true], true)
    else
      (Event.queueGet key false
        :: Event.stdout ("Managing Resource: " ++ key ++ "\n")
        :: Event.queueDone key
        :: (workLoop rest).1, (workLoop rest).2)

/-- The calls `Run` makes before the loop. -/
def startup (synced : Bool) : List Event :=
  [Event.stdout "Starting AutoPilot Controller...\n", Event.informerRun,
    Event.waitForCacheSync synced]

/-- The method `Run`.  `synced` is the result of `cache.WaitForCacheSync`
(false when the stop channel closes before the informer has synced) and `gets`
the successive results of `queue.Get()`.  The deferred `c.queue.ShutDown()`
runs when `Run` returns, and not when `log.Fatalf` exits the process. -/
def Run (synced : Bool) (gets : List (String × Bool)) : List Event × Outcome :=
  if !synced then
    (startup synced ++ [Event.logFatalf "Failed to sync cache"], Outcome.exited 1)
  else
    match workLoop gets with
    | (calls, true) => (startup synced ++ calls ++ [Event.queueShutDown], Outcome.returned)
    | (calls, false) => (startup synced ++ calls, Outcome.blocked)

/-! ## A monitor for the Get/Done protocol -/

/-- Where a queue consumer stands between its `Get` and `Done` calls. -/
inductive Phase where
  /-- No key is held: the next queue call of the consumer is a `Get`. -/
  | idle
  /-- The last `Get` returned this key and its `Done` has not been issued. -/
  | holding (key : String)
  /-- A `Get` returned the shutdown signal. -/
  | stopped
  deriving DecidableEq, Repr

/-- Checks a sequence of calls against the rule "exactly one `Done(k)` after
each `Get` that returned `k`, before the next `Get`; no other `Done`; nothing
after the shutdown signal". -/
def pairedGetDone : Phase → List Event → Bool
  | .holding _, [] => false
  | _, [] => true
  | .idle, .queueGet key false :: rest => pairedGetDone (.holding key) rest
  | .idle, .queueGet _ true :: rest => pairedGetDone .stopped rest
  | _, .queueGet _ _ :: _ => false
  | .holding held, .queueDone key :: rest => decide (key = held) && pairedGetDone .idle rest
  | _, .queueDone _ :: _ => false
  | phase, _ :: rest => pairedGetDone phase rest

/-- The keys passed to `Done`, in call order. -/
def doneKeys : List Event → List String
  | [] => []
  | .queueDone key :: rest => key :: doneKeys rest
  | _ :: rest => doneKeys rest

/-- The results returned by `Get`, in call order. -/
def getResults : List Event → List (String × Bool)
  | [] => []
  | .queueGet key shutdown :: rest => (key, shutdown) :: getResults rest
  | _ :: rest => getResults rest

/-- The keys that `Get` hands out before its first shutdown result. -/
def keysBeforeShutdown : List (String × Bool) → List String
  | [] => []
  | (key, shutdown) :: rest => if shutdown then [] else key :: keysBeforeShutdown rest

/-! ## The dedup rate-limited work queue

`workqueue.NewRateLimitingQueue` and `workqueue.DefaultControllerRateLimiter`
are client-go code; the program only constructs the queue and calls it.  The
queue below follows the specification's description of it (data model and
operations of the "Dedup Rate-Limited Work Queue").  Time is a natural number
of time units and is passed to the operations that read the clock.
-/

/-- Modelled from the spec: the parameters of the exponential-backoff rate
limiter (`baseDelay`, `backoffFactor`, `maxDelay`); the limiter's code is not
part of the source. -/
structure RateLimiter where
  baseDelay : Nat
  backoffFactor : Nat
  maxDelay : Nat
  deriving DecidableEq, Repr

/-- Modelled from the spec: the numeric defaults "baseDelay = 1 time unit,
backoffFactor = 2, maxDelay = 1000 time units" of the rate limiter that
`workqueue.DefaultControllerRateLimiter()` returns; its code is not part of
the source. -/
def DefaultControllerRateLimiter : RateLimiter :=
  { baseDelay := 1, backoffFactor := 2, maxDelay := 1000 }

/-- Modelled from the spec: the state of the work queue (the queue's code is
not part of the source).  `pending` is in insertion order, `dirty` holds the
Processing keys whose dirty-while-processing mark is set, `delayed` pairs each
delayed key with its fire time, and `retries` is the retry counter keyed by
identity. -/
structure Queue where
  pending : List String
  processing : List String
  dirty : List String
  delayed : List (String × Nat)
  retries : String → Nat
  shuttingDown : Bool
  limiter : RateLimiter

/-- Modelled from the spec: the queue that `workqueue.NewRateLimitingQueue`
returns, with every set empty and every retry counter zero; its code is not
part of the source. -/
def NewRateLimitingQueue (limiter : RateLimiter) : Queue :=
  { pending := [], processing := [], dirty := [], delayed := [],
    retries := fun _ => 0, shuttingDown := false, limiter := limiter }

/-- Line 27 of `main.go`: the queue `NewAutoPilotController` constructs. -/
def controllerQueue : Queue :=
  NewRateLimitingQueue DefaultControllerRateLimiter

namespace Queue

/-- Modelled from the spec: membership of a key in Delayed (queue code not in
the source). -/
def isDelayed (q : Queue) (key : String) : Bool :=
  q.delayed.any (fun entry => entry.1 == key)

/-- Modelled from the spec: "insert into Pending if not already present", at
the back (queue code not in the source). -/
def insertPending (q : Queue) (key : String) : Queue :=
  if key ∈ q.pending then q else { q with pending := q.pending ++ [key] }

/-- Modelled from the spec: the entry rule shared by `Add` and by a delayed key
whose delay elapsed: "If key is Processing, set its dirty-while-processing mark
and return.  Otherwise, insert into Pending if not already present" (queue code
not in the source). -/
def enter (q : Queue) (key : String) : Queue :=
  if key ∈ q.processing then
    (if key ∈ q.dirty then q else { q with dirty := key :: q.dirty })
  else
    q.insertPending key

/-- Modelled from the spec: `Add(key)` (queue code not in the source).  After
`ShutDown` it is a no-op; "if key is Delayed, no-op"; otherwise the entry rule
applies. -/
def Add (q : Queue) (key : String) : Queue :=
  if q.shuttingDown then q
  else if q.isDelayed key then q
  else q.enter key

/-- Modelled from the spec: `Get()` (queue code not in the source).  The result
is `none` where the call would block: it returns a Pending key when one exists,
"removes the key from Pending, marks it Processing", and returns the shutdown
signal when the queue "has been shut down with Pending and Delayed both empty
and no dirty marks outstanding". -/
def Get (q : Queue) : Option (String × Bool) × Queue :=
  match q.pending with
  | key :: rest =>
    (some (key, false), { q with pending := rest, processing := key :: q.processing })
  | [] =>
    if q.shuttingDown && q.delayed.isEmpty && q.dirty.isEmpty then (some ("", true), q)
    else (none, q)

/-- Modelled from the spec: `Done(key)` (queue code not in the source).
"Clears Processing status.  If the dirty-while-processing mark was set,
immediately re-inserts the key into Pending (as if Add had just succeeded) and
clears the mark." -/
def Done (q : Queue) (key : String) : Queue :=
  if key ∈ q.dirty then
    insertPending
      { q with processing := q.processing.filter (fun held => held != key),
               dirty := q.dirty.filter (fun marked => marked != key) } key
  else
    { q with processing := q.processing.filter (fun held => held != key) }

/-- Modelled from the spec: `Forget(key)` "resets the key's retry counter to
zero" (queue code not in the source). -/
def Forget (q : Queue) (key : String) : Queue :=
  { q with retries := Function.update q.retries key 0 }

/-- Modelled from the spec: the delay
`min(baseDelay * backoffFactor^retryCount, maxDelay)` computed for a key (queue
code not in the source). -/
def backoffDelay (q : Queue) (key : String) : Nat :=
  min (q.limiter.baseDelay * q.limiter.backoffFactor ^ q.retries key) q.limiter.maxDelay

/-- Modelled from the spec: `AddRateLimited(key)` at time `now` (queue code not
in the source).  After `ShutDown` it is a no-op; otherwise it "computes delay,
increments retryCount, schedules the key into Delayed at now + delay". -/
def AddRateLimited (q : Queue) (key : String) (now : Nat) : Queue :=
  if q.shuttingDown then q
  else
    { q with
      retries := Function.update q.retries key (q.retries key + 1),
      delayed := (key, now + q.backoffDelay key)
        :: q.delayed.filter (fun entry => entry.1 != key) }

/-- Modelled from the spec: `ShutDown()` "marks the queue as shutting down"
(queue code not in the source). -/
def ShutDown (q : Queue) : Queue :=
  { q with shuttingDown := true }

/-- Modelled from the spec: the timer at time `now` (queue code not in the
source): each key whose delay has elapsed "moves from Delayed to Pending as if
Add had been called (subject to the same Processing-dirty-mark rule)". -/
def fire (q : Queue) (now : Nat) : Queue :=
  ((q.delayed.filter (fun entry => decide (entry.2 ≤ now))).map Prod.fst).foldl enter
    { q with delayed := q.delayed.filter (fun entry => !decide (entry.2 ≤ now)) }

/-- The fire time at which a key is scheduled in Delayed, if it is. -/
def fireTime (q : Queue) (key : String) : Option Nat :=
  (q.delayed.find? (fun entry => entry.1 == key)).map Prod.snd

/-- Modelled from the spec: the data-model invariant "a key is in at most one
of Pending, Processing, Delayed", with Pending free of duplicates and the dirty
mark "an annotation on Processing". -/
structure WF (q : Queue) : Prop where
  pending_nodup : q.pending.Nodup
  pending_processing : ∀ key ∈ q.pending, key ∉ q.processing
  pending_delayed : ∀ key ∈ q.pending, q.isDelayed key = false
  processing_delayed : ∀ key ∈ q.processing, q.isDelayed key = false
  dirty_processing : ∀ key ∈ q.dirty, key ∈ q.processing

/-- A single consumer emptying the queue: `Get`, then `Done` of the key
returned, until `Get` has no key to return or `fuel` keys were taken. -/
def drain : Nat → Queue → List String
  | 0, _ => []
  | fuel + 1, q =>
    match q.Get with
    | (some (key, false), q1) => key :: drain fuel (q1.Done key)
    | _ => []

end Queue

/-- A call on the queue, with the clock reading for the calls that use it. -/
inductive QueueCall where
  | add (key : String)
  | get
  | done (key : String)
  | forget (key : String)
  | addRateLimited (key : String) (now : Nat)
  | shutDown
  | fire (now : Nat)
  deriving DecidableEq, Repr

/-- The state after one call. -/
def Queue.step (q : Queue) : QueueCall → Queue
  | .add key => q.Add key
  | .get => q.Get.2
  | .done key => q.Done key
  | .forget key => q.Forget key
  | .addRateLimited key now => q.AddRateLimited key now
  | .shutDown => q.ShutDown
  | .fire now => q.fire now

/-- The state after a sequence of calls. -/
def Queue.run (q : Queue) (calls : List QueueCall) : Queue :=
  calls.foldl Queue.step q

/-- The call is `AddRateLimited` for the given key. -/
def QueueCall.isRetryOf (key : String) : QueueCall → Bool
  | .addRateLimited other _ => other == key
  | _ => false

/-- The call is one that `main.go` makes on its queue: `Add` in the handlers,
`Get` and `Done` in the loop of `Run`, the deferred `ShutDown`. -/
def QueueCall.madeByProgram : QueueCall → Bool
  | .add _ => true
  | .get => true
  | .done _ => true
  | .shutDown => true
  | _ => false

/-- The modelled queue as an implementation of the queue calls the program
makes, reading the clock as `now`. -/
def Queue.ops (now : Nat) : QueueOps Queue where
  Add := fun key q => q.Add key
  Get := fun q => q.Get.2
  Done := fun key q => q.Done key
  Forget := fun key q => q.Forget key
  AddRateLimited := fun key q => q.AddRateLimited key now
  ShutDown := fun q => q.ShutDown

/-- The delays of `count` consecutive `AddRateLimited(key)` calls at time
`now`, read off the Delayed set after each call. -/
def Queue.consecutiveDelays (q : Queue) (key : String) (now : Nat) : Nat → List Nat
  | 0 => []
  | count + 1 =>
    match (q.AddRateLimited key now).fireTime key with
    | some time => (time - now) :: Queue.consecutiveDelays (q.AddRateLimited key now) key now count
    | none => []

/-! ## Sample environments -/

/-- A sample object for examples: `none` is an object without metadata,
`some (namespace, name)` an object with it. -/
abbrev SampleObj := Option (String × String)

/-- A sample key function for examples: `namespace/name`, or an error for an
object without metadata. -/
def sampleKeyFunc : SampleObj → String × GoError
  | some (ns, name) => (ns ++ "/" ++ name, none)
  | none => ("", some "object has no meta")

/-! # Theorems -/

/-! ## Event handlers -/

/-- C1: when key extraction succeeds with key `k`, each of the add, update and
delete handlers makes exactly one call, `queue.Add(k)`, whatever the old object
of an update is; on every queue implementation and queue state the effect of
each handler is that of `Add(k)`. -/
theorem handlers_enqueue_extracted_key {Obj Q : Type} (keyFunc : Obj → String × GoError)
    (obj oldObj : Obj) (k : String) (ops : QueueOps Q) (q : Q)
    (hkey : keyFunc obj = (k, none)) :
    AddFunc keyFunc obj = [Event.queueAdd k] ∧
    UpdateFunc keyFunc oldObj obj = [Event.queueAdd k] ∧
    DeleteFunc keyFunc obj = [Event.queueAdd k] ∧
    ops.replay (AddFunc keyFunc obj) q = ops.Add k q ∧
    ops.replay (UpdateFunc keyFunc oldObj obj) q = ops.Add k q ∧
    ops.replay (DeleteFunc keyFunc obj) q = ops.Add k q := by
  simp [AddFunc, UpdateFunc, DeleteFunc, hkey, QueueOps.replay, QueueOps.apply]

/-- Witness for C1: a pod `default/web` notified to the controller's queue. -/
theorem handlers_enqueue_extracted_key_witness :
    sampleKeyFunc (some ("default", "web")) = ("default/web", none) ∧
    (AddFunc sampleKeyFunc (some ("default", "web")) = [Event.queueAdd "default/web"] ∧
     UpdateFunc sampleKeyFunc none (some ("default", "web")) = [Event.queueAdd "default/web"] ∧
     DeleteFunc sampleKeyFunc (some ("default", "web")) = [Event.queueAdd "default/web"] ∧
     (Queue.ops 0).replay (AddFunc sampleKeyFunc (some ("default", "web"))) controllerQueue
       = (Queue.ops 0).Add "default/web" controllerQueue ∧
     (Queue.ops 0).replay (UpdateFunc sampleKeyFunc none (some ("default", "web")))
       controllerQueue = (Queue.ops 0).Add "default/web" controllerQueue ∧
     (Queue.ops 0).replay (DeleteFunc sampleKeyFunc (some ("default", "web"))) controllerQueue
       = (Queue.ops 0).Add "default/web" controllerQueue) :=
  ⟨by decide, handlers_enqueue_extracted_key sampleKeyFunc (some ("default", "web")) none
    "default/web" (Queue.ops 0) controllerQueue (by decide)⟩

/-- C2: when key extraction fails, each of the add, update and delete handlers
makes no call at all, so on every queue implementation the queue state after
the handler is the state before it. -/
theorem handlers_drop_malformed {Obj Q : Type} (keyFunc : Obj → String × GoError)
    (obj oldObj : Obj) (key err : String) (ops : QueueOps Q) (q : Q)
    (hkey : keyFunc obj = (key, some err)) :
    AddFunc keyFunc obj = [] ∧
    UpdateFunc keyFunc oldObj obj = [] ∧
    DeleteFunc keyFunc obj = [] ∧
    ops.replay (AddFunc keyFunc obj) q = q ∧
    ops.replay (UpdateFunc keyFunc oldObj obj) q = q ∧
    ops.replay (DeleteFunc keyFunc obj) q = q := by
  simp [AddFunc, UpdateFunc, DeleteFunc, hkey, QueueOps.replay]

/-- Witness for C2: an object without metadata notified to the controller's
queue. -/
theorem handlers_drop_malformed_witness :
    sampleKeyFunc none = ("", some "object has no meta") ∧
    (AddFunc sampleKeyFunc none = [] ∧
     UpdateFunc sampleKeyFunc (some ("default", "web")) none = [] ∧
     DeleteFunc sampleKeyFunc none = [] ∧
     (Queue.ops 0).replay (AddFunc sampleKeyFunc none) controllerQueue = controllerQueue ∧
     (Queue.ops 0).replay (UpdateFunc sampleKeyFunc (some ("default", "web")) none)
       controllerQueue = controllerQueue ∧
     (Queue.ops 0).replay (DeleteFunc sampleKeyFunc none) controllerQueue = controllerQueue) :=
  ⟨by decide, handlers_drop_malformed sampleKeyFunc none (some ("default", "web")) ""
    "object has no meta" (Queue.ops 0) controllerQueue (by decide)⟩

/-- C10, counterexample: for an object without metadata key extraction fails,
and none of the three handlers produces a log event (the add handler produces
no event of any kind). -/
theorem malformed_not_logged :
    (sampleKeyFunc none).2 ≠ none ∧
    AddFunc sampleKeyFunc none = [] ∧
    (AddFunc sampleKeyFunc none).any Event.isLog = false ∧
    (UpdateFunc sampleKeyFunc (some ("default", "web")) none).any Event.isLog = false ∧
    (DeleteFunc sampleKeyFunc none).any Event.isLog = false := by
  decide

/-- C10, amended: a notification for which key extraction fails is dropped
silently: the handler that receives it produces no event, and so no log
event. -/
theorem malformed_dropped_silently {Obj : Type} (keyFunc : Obj → String × GoError)
    (n : Notification Obj) (err : String) (hkey : (keyFunc n.subject).2 = some err) :
    n.handle keyFunc = [] ∧ ∀ e ∈ n.handle keyFunc, e.isLog = false := by
  have hnil : n.handle keyFunc = [] := by
    cases n <;>
      simp only [Notification.subject] at hkey <;>
      simp only [Notification.handle, AddFunc, UpdateFunc, DeleteFunc] <;>
      split <;> simp_all
  simp [hnil]

/-- Witness for the amended C10: a delete notification for an object without
metadata. -/
theorem malformed_dropped_silently_witness :
    (sampleKeyFunc (Notification.deleted (none : SampleObj)).subject).2
      = some "object has no meta" ∧
    ((Notification.deleted (none : SampleObj)).handle sampleKeyFunc = [] ∧
      ∀ e ∈ (Notification.deleted (none : SampleObj)).handle sampleKeyFunc, e.isLog = false) :=
  ⟨by decide, malformed_dropped_silently sampleKeyFunc (Notification.deleted none)
    "object has no meta" (by decide)⟩

/-! ## The loop of `Run` -/

theorem pairedGetDone_skip (phase : Phase) (e : Event) (rest : List Event)
    (h : e.isQueueCall = false) :
    pairedGetDone phase (e :: rest) = pairedGetDone phase rest := by
  cases e <;> simp [Event.isQueueCall] at h <;> cases phase <;> simp [pairedGetDone]

theorem pairedGetDone_workLoop (gets : List (String × Bool)) (tail : List Event) :
    pairedGetDone .idle ((workLoop gets).1 ++ tail)
      = pairedGetDone (if (workLoop gets).2 then Phase.stopped else Phase.idle) tail := by
  induction gets with
  | nil => simp [workLoop]
  | cons head rest ih =>
    obtain ⟨key, shutdown⟩ := head
    cases shutdown
    · simp only [workLoop, Bool.false_eq_true, if_false, List.cons_append]
      rw [pairedGetDone, pairedGetDone_skip _ _ _ (by rfl), pairedGetDone]
      simp only [decide_True, Bool.true_and]
      exact ih
    · simp [workLoop, pairedGetDone]

theorem doneKeys_append (xs ys : List Event) :
    doneKeys (xs ++ ys) = doneKeys xs ++ doneKeys ys := by
  induction xs with
  | nil => rfl
  | cons e rest ih => cases e <;> simp [doneKeys, ih]

theorem getResults_append (xs ys : List Event) :
    getResults (xs ++ ys) = getResults xs ++ getResults ys := by
  induction xs with
  | nil => rfl
  | cons e rest ih => cases e <;> simp [getResults, ih]

theorem doneKeys_workLoop (gets : List (String × Bool)) :
    doneKeys (workLoop gets).1 = keysBeforeShutdown gets := by
  induction gets with
  | nil => rfl
  | cons head rest ih =>
    obtain ⟨key, shutdown⟩ := head
    cases shutdown <;> simp [workLoop, doneKeys, keysBeforeShutdown, ih]

theorem getResults_workLoop (gets : List (String × Bool)) :
    getResults (workLoop gets).1 <+: gets := by
  induction gets with
  | nil => simp [workLoop, getResults]
  | cons head rest ih =>
    obtain ⟨key, shutdown⟩ := head
    cases shutdown
    · simpa [workLoop, getResults] using ih
    · simp [workLoop, getResults]

/-- The trace of `Run` after a successful cache sync, in terms of the loop. -/
theorem Run_synced (gets : List (String × Bool)) :
    Run true gets =
      (startup true ++ (workLoop gets).1
          ++ (if (workLoop gets).2 then [Event.queueShutDown] else []),
        if (workLoop gets).2 then Outcome.returned else Outcome.blocked) := by
  unfold Run
  rcases h : workLoop gets with ⟨calls, left⟩
  cases left <;> simp

/-- The trace of `Run` when the cache sync fails. -/
theorem Run_unsynced (gets : List (String × Bool)) :
    Run false gets
      = (startup false ++ [Event.logFatalf "Failed to sync cache"], Outcome.exited 1) := by
  simp [Run]

/-- C3: in every execution of `Run`, for every sequence of results of
`queue.Get`, the calls follow the Get/Done protocol: each `Get` that returned
`(k, false)` is followed by exactly one `Done(k)` before the next `Get`, no
other `Done` is issued, and none after a `Get` that returned the shutdown
signal; the `Get` results consumed are an initial segment of the results on
offer and the keys passed to `Done` are exactly the keys returned before the
first shutdown result. -/
theorem run_done_once_per_get (synced : Bool) (gets : List (String × Bool)) :
    pairedGetDone .idle (Run synced gets).1 = true ∧
    getResults (Run synced gets).1 <+: gets ∧
    doneKeys (Run synced gets).1 = (if synced then keysBeforeShutdown gets else []) := by
  cases synced
  · rw [Run_unsynced]
    refine ⟨by simp [startup, pairedGetDone], by simp [startup, getResults], ?_⟩
    simp [startup, doneKeys]
  · rw [Run_synced]
    refine ⟨?_, ?_, ?_⟩
    · simp only [startup, List.cons_append, List.nil_append, List.append_assoc]
      rw [pairedGetDone_skip _ _ _ (by rfl), pairedGetDone_skip _ _ _ (by rfl),
        pairedGetDone_skip _ _ _ (by rfl), pairedGetDone_workLoop]
      cases (workLoop gets).2 <;> simp [pairedGetDone]
    · simp only [getResults_append]
      have h := getResults_workLoop gets
      cases (workLoop gets).2 <;> simpa [startup, getResults] using h
    · simp only [doneKeys_append, doneKeys_workLoop]
      cases (workLoop gets).2 <;> simp [startup, doneKeys]

/-- The three calls of one pass through the loop body for key `k`. -/
theorem workLoop_pass_infix (gets : List (String × Bool)) (k : String)
    (h : Event.queueGet k false ∈ (workLoop gets).1) :
    [Event.queueGet k false, Event.stdout ("Managing Resource: " ++ k ++ "\n"),
      Event.queueDone k] <:+: (workLoop gets).1 := by
  induction gets with
  | nil => simp [workLoop] at h
  | cons head rest ih =>
    obtain ⟨key, shutdown⟩ := head
    cases shutdown
    · simp only [workLoop, Bool.false_eq_true, if_false, List.mem_cons] at h ⊢
      rcases h with h | h | h | h
      · injection h with hk _
        subst hk
        exact ⟨[], (workLoop rest).1, by simp⟩
      · cases h
      · cases h
      · obtain ⟨pre, post, hpp⟩ := ih h
        exact ⟨Event.queueGet key false
          :: Event.stdout ("Managing Resource: " ++ key ++ "\n")
          :: Event.queueDone key :: pre, post, by simp [← hpp]⟩
    · simp [workLoop] at h

theorem workLoop_no_outcome_report (gets : List (String × Bool)) (k : String) :
    Event.queueForget k ∉ (workLoop gets).1 ∧
    Event.queueAddRateLimited k ∉ (workLoop gets).1 := by
  induction gets with
  | nil => simp [workLoop]
  | cons head rest ih =>
    obtain ⟨key, shutdown⟩ := head
    cases shutdown <;> simp [workLoop, ih]

/-- C4, counterexample: `Get` returns the key `default/web` and then the
shutdown signal; the key is handled and `Done` is called for it, but no
`Forget` (and no `AddRateLimited`) is ever called for it. -/
theorem run_never_forgets :
    Event.queueDone "default/web" ∈ (Run true [("default/web", false), ("", true)]).1 ∧
    Event.queueForget "default/web" ∉ (Run true [("default/web", false), ("", true)]).1 ∧
    Event.queueAddRateLimited "default/web"
      ∉ (Run true [("default/web", false), ("", true)]).1 := by
  decide

/-- C4, amended: for every key `k` that `queue.Get` returns with
`shutdown = false`, the loop of `Run` prints the key and calls `Done(k)`
right after the `Get`; it reports no reconcile outcome: `Run` never calls
`Forget` or `AddRateLimited`. -/
theorem run_handles_then_done (synced : Bool) (gets : List (String × Bool)) (k : String) :
    (Event.queueGet k false ∈ (Run synced gets).1 →
      [Event.queueGet k false, Event.stdout ("Managing Resource: " ++ k ++ "\n"),
        Event.queueDone k] <:+: (Run synced gets).1) ∧
    Event.queueForget k ∉ (Run synced gets).1 ∧
    Event.queueAddRateLimited k ∉ (Run synced gets).1 := by
  cases synced
  · rw [Run_unsynced]
    simp [startup]
  · rw [Run_synced]
    have hno := workLoop_no_outcome_report gets k
    refine ⟨fun h => ?_, ?_, ?_⟩
    · have hin : Event.queueGet k false ∈ (workLoop gets).1 := by
        cases hb : (workLoop gets).2 <;> simpa [startup, hb] using h
      obtain ⟨pre, post, hpp⟩ := workLoop_pass_infix gets k hin
      exact ⟨startup true ++ pre,
        post ++ (if (workLoop gets).2 then [Event.queueShutDown] else []),
        by simp [← hpp]⟩
    · cases hb : (workLoop gets).2 <;> simp [startup, hno.1]
    · cases hb : (workLoop gets).2 <;> simp [startup, hno.2]

/-- Witness for the amended C4: one key and then the shutdown signal. -/
theorem run_handles_then_done_witness :
    (Event.queueGet "default/web" false ∈ (Run true [("default/web", false), ("", true)]).1 →
      [Event.queueGet "default/web" false,
        Event.stdout ("Managing Resource: " ++ "default/web" ++ "\n"),
        Event.queueDone "default/web"]
        <:+: (Run true [("default/web", false), ("", true)]).1) ∧
    Event.queueForget "default/web" ∉ (Run true [("default/web", false), ("", true)]).1 ∧
    Event.queueAddRateLimited "default/web"
      ∉ (Run true [("default/web", false), ("", true)]).1 :=
  run_handles_then_done true [("default/web", false), ("", true)] "default/web"

/-- C5, the code at the failing input: after a successful sync, with `Get`
returning one key and then the shutdown signal, the only `ShutDown` call of
`Run` is its last call, after the `Get` that returned the shutdown signal;
and while `Get` returns no shutdown signal `Run` stays in the loop and calls
`ShutDown` never. -/
theorem run_shutdown_follows_shutdown_signal :
    Run true [("default/web", false), ("", true)]
      = ([Event.stdout "Starting AutoPilot Controller...\n", Event.informerRun,
          Event.waitForCacheSync true, Event.queueGet "default/web" false,
          Event.stdout "Managing Resource: default/web\n", Event.queueDone "default/web",
          Event.queueGet "" true, Event.queueShutDown], Outcome.returned) ∧
    Run true [("default/web", false)]
      = ([Event.stdout "Starting AutoPilot Controller...\n", Event.informerRun,
          Event.waitForCacheSync true, Event.queueGet "default/web" false,
          Event.stdout "Managing Resource: default/web\n", Event.queueDone "default/web"],
         Outcome.blocked) := by
  decide

/-- In every execution of `Run`, `ShutDown` is called only when the loop was
left, that is after a `Get` returned the shutdown signal, and then as the very
last call. -/
theorem run_shutdown_only_after_loop (gets : List (String × Bool)) :
    (Event.queueShutDown ∈ (Run true gets).1 ↔ (workLoop gets).2 = true) ∧
    ((workLoop gets).2 = true →
      ∃ calls key, (Run true gets).1
        = calls ++ [Event.queueGet key true, Event.queueShutDown] ∧
        Event.queueShutDown ∉ calls) := by
  have hno : ∀ gets : List (String × Bool), Event.queueShutDown ∉ (workLoop gets).1 := by
    intro gets
    induction gets with
    | nil => simp [workLoop]
    | cons head rest ih =>
      obtain ⟨key, shutdown⟩ := head
      cases shutdown <;> simp [workLoop, ih]
  have hlast : ∀ gets : List (String × Bool), (workLoop gets).2 = true →
      ∃ calls key, (workLoop gets).1 = calls ++ [Event.queueGet key true] := by
    intro gets
    induction gets with
    | nil => simp [workLoop]
    | cons head rest ih =>
      obtain ⟨key, shutdown⟩ := head
      cases shutdown
      · intro h
        simp only [workLoop, Bool.false_eq_true, if_false] at h ⊢
        obtain ⟨calls, key2, hc⟩ := ih h
        exact ⟨Event.queueGet key false
          :: Event.stdout ("Managing Resource: " ++ key ++ "\n")
          :: Event.queueDone key :: calls, key2, by simp [hc]⟩
      · intro _
        exact ⟨[], key, by simp [workLoop]⟩
  rw [Run_synced]
  refine ⟨?_, fun h => ?_⟩
  · cases hb : (workLoop gets).2 <;> simp [startup, hno gets]
  · obtain ⟨calls, key, hc⟩ := hlast gets h
    refine ⟨startup true ++ calls, key, by simp [h, hc], ?_⟩
    have := hno gets
    rw [hc] at this
    simp only [List.mem_append, not_or] at this
    simp [startup, this.1]

/-- C6: when `cache.WaitForCacheSync` returns false, `Run` logs the failure
and the process exits; whatever the queue would hand out, `Run` has issued no
`queue.Get`, no `queue.Done`, no queue call at all, and has handled no key. -/
theorem run_unsynced_handles_nothing (gets : List (String × Bool)) :
    Run false gets
      = ([Event.stdout "Starting AutoPilot Controller...\n", Event.informerRun,
          Event.waitForCacheSync false, Event.logFatalf "Failed to sync cache"],
         Outcome.exited 1) ∧
    getResults (Run false gets).1 = [] ∧
    doneKeys (Run false gets).1 = [] ∧
    (∀ e ∈ (Run false gets).1, e.isQueueCall = false) ∧
    (∀ key, Event.stdout ("Managing Resource: " ++ key ++ "\n") ∉ (Run false gets).1) := by
  rw [Run_unsynced]
  refine ⟨rfl, by simp [startup, getResults], by simp [startup, doneKeys], ?_, ?_⟩
  · simp [startup, Event.isQueueCall]
  · intro key
    simp only [startup, List.cons_append, List.nil_append, List.mem_cons, Event.stdout.injEq,
      List.mem_singleton, not_or]
    refine ⟨?_, by simp, by simp, by simp, by simp⟩
    intro h
    have hd := congrArg (fun t => t.data.head?) h
    simp at hd

/-! ## The work queue: coalescing -/

namespace Queue

theorem insertPending_pending (q : Queue) (k : String) :
    (q.insertPending k).pending = if k ∈ q.pending then q.pending else q.pending ++ [k] := by
  unfold insertPending
  split <;> rfl

theorem insertPending_rest (q : Queue) (k : String) :
    (q.insertPending k).processing = q.processing ∧
    (q.insertPending k).dirty = q.dirty ∧
    (q.insertPending k).delayed = q.delayed ∧
    (q.insertPending k).retries = q.retries ∧
    (q.insertPending k).shuttingDown = q.shuttingDown ∧
    (q.insertPending k).limiter = q.limiter := by
  unfold insertPending
  split <;> simp

theorem insertPending_isDelayed (q : Queue) (k key : String) :
    (q.insertPending k).isDelayed key = q.isDelayed key := by
  simp [isDelayed, (insertPending_rest q k).2.2.1]

theorem mem_insertPending (q : Queue) (k : String) : k ∈ (q.insertPending k).pending := by
  rw [insertPending_pending]
  split <;> simp [*]

theorem insertPending_idem (q : Queue) (k : String) :
    (q.insertPending k).insertPending k = q.insertPending k := by
  have h := mem_insertPending q k
  rw [insertPending, if_pos h]

theorem Add_eq_insertPending (q : Queue) (k : String) (hshut : q.shuttingDown = false)
    (hproc : k ∉ q.processing) (hdel : q.isDelayed k = false) :
    q.Add k = q.insertPending k := by
  simp [Add, enter, hshut, hproc, hdel]

theorem iterate_Add_eq_insertPending (q : Queue) (k : String) (hshut : q.shuttingDown = false)
    (hproc : k ∉ q.processing) (hdel : q.isDelayed k = false) (N : Nat) :
    (fun s : Queue => s.Add k)^[N + 1] q = q.insertPending k := by
  induction N with
  | zero => simpa using Add_eq_insertPending q k hshut hproc hdel
  | succ n ih =>
    rw [Function.iterate_succ_apply', ih]
    have hr := insertPending_rest q k
    rw [Add_eq_insertPending _ k (by rw [hr.2.2.2.2.1]; exact hshut)
      (by rw [hr.1]; exact hproc) (by rw [insertPending_isDelayed]; exact hdel)]
    exact insertPending_idem q k

theorem count_insertPending (q : Queue) (k : String) (hnodup : q.pending.Nodup) :
    (q.insertPending k).pending.count k = 1 := by
  rw [insertPending_pending]
  by_cases h : k ∈ q.pending
  · simpa [h] using List.count_eq_one_of_mem hnodup h
  · simp [h, List.count_eq_zero_of_not_mem h]

theorem WF_insertPending (q : Queue) (hwf : q.WF) (k : String) (hproc : k ∉ q.processing)
    (hdel : q.isDelayed k = false) : (q.insertPending k).WF := by
  have hr := insertPending_rest q k
  have hp := insertPending_pending q k
  by_cases h : k ∈ q.pending
  · have : q.insertPending k = q := by simp [insertPending, h]
    rw [this]
    exact hwf
  · simp only [h, if_false] at hp
    refine ⟨?_, ?_, ?_, ?_, ?_⟩
    · rw [hp]
      exact List.Nodup.append hwf.pending_nodup (List.nodup_singleton k) (by simpa using h)
    · intro key hkey
      rw [hp] at hkey
      rw [hr.1]
      rcases List.mem_append.mp hkey with hk | hk
      · exact hwf.pending_processing key hk
      · simp only [List.mem_singleton] at hk
        subst hk
        exact hproc
    · intro key hkey
      rw [hp] at hkey
      rw [insertPending_isDelayed]
      rcases List.mem_append.mp hkey with hk | hk
      · exact hwf.pending_delayed key hk
      · simp only [List.mem_singleton] at hk
        subst hk
        exact hdel
    · intro key hkey
      rw [hr.1] at hkey
      rw [insertPending_isDelayed]
      exact hwf.processing_delayed key hkey
    · intro key hkey
      rw [hr.2.1] at hkey
      rw [hr.1]
      exact hwf.dirty_processing key hkey

/-- Taking the head of Pending and releasing it again leaves the rest of
Pending and nothing else changed. -/
theorem Get_Done_head (q : Queue) (hwf : q.WF) (key : String) (rest : List String)
    (hp : q.pending = key :: rest) :
    q.Get = (some (key, false),
      { q with pending := rest, processing := key :: q.processing }) ∧
    Done { q with pending := rest, processing := key :: q.processing } key
      = { q with pending := rest } := by
  have hkp : key ∉ q.processing := hwf.pending_processing key (by simp [hp])
  have hkd : key ∉ q.dirty := fun h => hkp (hwf.dirty_processing key h)
  refine ⟨by simp [Get, hp], ?_⟩
  have hfilter : q.processing.filter (fun held => held != key) = q.processing := by
    rw [List.filter_eq_self]
    intro a ha
    simpa using fun h : a = key => hkp (h ▸ ha)
  simp [Done, hkd, hfilter]

theorem WF_tail (q : Queue) (hwf : q.WF) (key : String) (rest : List String)
    (hp : q.pending = key :: rest) : WF { q with pending := rest } := by
  have hsub : ∀ x ∈ rest, x ∈ q.pending := fun x hx => by simp [hp, hx]
  refine ⟨?_, ?_, ?_, ?_, ?_⟩
  · have := hwf.pending_nodup
    rw [hp] at this
    exact (List.nodup_cons.mp this).2
  · exact fun x hx => hwf.pending_processing x (hsub x hx)
  · exact fun x hx => hwf.pending_delayed x (hsub x hx)
  · exact hwf.processing_delayed
  · exact hwf.dirty_processing

theorem drain_eq_pending (fuel : Nat) (q : Queue) (hwf : q.WF)
    (hfuel : q.pending.length ≤ fuel) : q.drain fuel = q.pending := by
  induction fuel generalizing q with
  | zero =>
    have : q.pending = [] := List.length_eq_zero.mp (Nat.le_zero.mp hfuel)
    simp [drain, this]
  | succ n ih =>
    cases hp : q.pending with
    | nil =>
      cases h : (q.shuttingDown && q.delayed.isEmpty && q.dirty.isEmpty) <;>
        simp [drain, Get, hp, h]
    | cons key rest =>
      obtain ⟨hget, hdone⟩ := Get_Done_head q hwf key rest hp
      have hlen : rest.length ≤ n := by
        rw [hp] at hfuel
        simpa using hfuel
      simp only [drain, hget, hdone]
      rw [ih _ (WF_tail q hwf key rest hp) hlen]

end Queue

theorem replay_handlers_eq_iterate_Add {Obj : Type} (keyFunc : Obj → String × GoError)
    (k : String) (now : Nat) (ns : List (Notification Obj))
    (hk : ∀ n ∈ ns, keyFunc n.subject = (k, none)) (q : Queue) :
    (Queue.ops now).replay (ns.flatMap (Notification.handle keyFunc)) q
      = (fun s : Queue => s.Add k)^[ns.length] q := by
  induction ns generalizing q with
  | nil => rfl
  | cons n rest ih =>
    have hn : n.handle keyFunc = [Event.queueAdd k] := by
      have := hk n (by simp)
      cases n <;> simp only [Notification.subject] at this <;>
        simp [Notification.handle, AddFunc, UpdateFunc, DeleteFunc, this]
    have hrest := ih (fun m hm => hk m (by simp [hm])) (q.Add k)
    simp only [List.flatMap_cons, hn, List.length_cons, Function.iterate_succ_apply]
    simpa [QueueOps.replay, QueueOps.apply, Queue.ops] using hrest

/-- C7, counterexample: three `Add` calls for a key that is not Processing
leave no Pending entry for it when the key is Delayed, and likewise when the
queue has been shut down. -/
theorem add_not_coalesced_into_pending :
    "a" ∉ (controllerQueue.AddRateLimited "a" 0).processing ∧
    ((fun s : Queue => s.Add "a")^[3] (controllerQueue.AddRateLimited "a" 0)).pending.count "a"
      = 0 ∧
    "a" ∉ controllerQueue.ShutDown.processing ∧
    ((fun s : Queue => s.Add "a")^[3] controllerQueue.ShutDown).pending.count "a" = 0 := by
  decide

/-- C7, amended: for every key `k` and `N ≥ 1`, `N` calls `Add(k)` issued
while `k` is neither Processing nor Delayed and the queue has not been shut
down leave exactly one Pending entry for `k`; `N` handler invocations for
notifications with key `k` are such calls, and a consumer emptying the queue
afterwards is handed `k` exactly once. -/
theorem add_coalesces {Obj : Type} (q : Queue) (hwf : q.WF) (k : String) (N : Nat)
    (hN : 1 ≤ N) (hshut : q.shuttingDown = false) (hproc : k ∉ q.processing)
    (hdel : q.isDelayed k = false) (keyFunc : Obj → String × GoError)
    (ns : List (Notification Obj)) (hlen : ns.length = N)
    (hk : ∀ n ∈ ns, keyFunc n.subject = (k, none)) (now : Nat) :
    ((fun s : Queue => s.Add k)^[N] q).pending.count k = 1 ∧
    (Queue.ops now).replay (ns.flatMap (Notification.handle keyFunc)) q
      = (fun s : Queue => s.Add k)^[N] q ∧
    ∀ fuel, ((fun s : Queue => s.Add k)^[N] q).pending.length ≤ fuel →
      (((fun s : Queue => s.Add k)^[N] q).drain fuel).count k = 1 := by
  obtain ⟨n, rfl⟩ : ∃ n, N = n + 1 := ⟨N - 1, by omega⟩
  have hiter := Queue.iterate_Add_eq_insertPending q k hshut hproc hdel n
  have hcount := Queue.count_insertPending q k hwf.pending_nodup
  refine ⟨by rw [hiter]; exact hcount, ?_, ?_⟩
  · rw [← hlen]
    exact replay_handlers_eq_iterate_Add keyFunc k now ns hk q
  · intro fuel hfuel
    rw [hiter] at hfuel ⊢
    rw [Queue.drain_eq_pending fuel _ (Queue.WF_insertPending q hwf k hproc hdel) hfuel]
    exact hcount

theorem controllerQueue_WF : controllerQueue.WF := by
  refine ⟨?_, ?_, ?_, ?_, ?_⟩ <;> simp [controllerQueue, NewRateLimitingQueue]

/-- Witness for the amended C7: an add, an update and a delete notification
for the pod `default/web` on the controller's new queue. -/
theorem add_coalesces_witness :
    controllerQueue.WF ∧ 1 ≤ 3 ∧ controllerQueue.shuttingDown = false ∧
    "default/web" ∉ controllerQueue.processing ∧
    controllerQueue.isDelayed "default/web" = false ∧
    [Notification.added (some ("default", "web")),
      Notification.updated none (some ("default", "web")),
      Notification.deleted (some ("default", "web"))].length = 3 ∧
    (∀ n ∈ [Notification.added (some ("default", "web")),
        Notification.updated none (some ("default", "web")),
        Notification.deleted (some ("default", "web"))],
      sampleKeyFunc n.subject = ("default/web", none)) ∧
    (((fun s : Queue => s.Add "default/web")^[3] controllerQueue).pending.count "default/web"
        = 1 ∧
      (Queue.ops 0).replay
          ([Notification.added (some ("default", "web")),
            Notification.updated none (some ("default", "web")),
            Notification.deleted (some ("default", "web"))].flatMap
              (Notification.handle sampleKeyFunc)) controllerQueue
        = (fun s : Queue => s.Add "default/web")^[3] controllerQueue ∧
      ∀ fuel, ((fun s : Queue => s.Add "default/web")^[3] controllerQueue).pending.length
          ≤ fuel →
        (((fun s : Queue => s.Add "default/web")^[3] controllerQueue).drain fuel).count
          "default/web" = 1) :=
  ⟨controllerQueue_WF, by decide, by decide, by decide, by decide, by decide, by decide,
    add_coalesces controllerQueue controllerQueue_WF "default/web" 3 (by decide) (by decide)
      (by decide) (by decide) sampleKeyFunc _ (by decide) (by decide) 0⟩

/-! ## The work queue: re-add while processing -/

namespace Queue

theorem Get_key (q q1 : Queue) (k : String) (hget : q.Get = (some (k, false), q1)) :
    ∃ rest, q.pending = k :: rest ∧
      q1 = { q with pending := rest, processing := k :: q.processing } := by
  unfold Get at hget
  cases hp : q.pending with
  | nil =>
    rw [hp] at hget
    simp only at hget
    split at hget <;> simp at hget
  | cons key rest =>
    rw [hp] at hget
    simp only [Prod.mk.injEq, Option.some.injEq, and_true] at hget
    obtain ⟨hk, hq⟩ := hget
    subst hk
    exact ⟨rest, rfl, hq.symm⟩

theorem iterate_Add_processing (q : Queue) (k : String) (hshut : q.shuttingDown = false)
    (hproc : k ∈ q.processing) (hdel : q.isDelayed k = false) (hdirty : k ∉ q.dirty)
    (N : Nat) :
    (fun s : Queue => s.Add k)^[N + 1] q = { q with dirty := k :: q.dirty } := by
  induction N with
  | zero => simp [Add, enter, hshut, hproc, hdel, hdirty]
  | succ n ih =>
    rw [Function.iterate_succ_apply', ih]
    have hdel2 : isDelayed { q with dirty := k :: q.dirty } k = false := hdel
    simp [Add, enter, hshut, hproc, hdel2]

end Queue

/-- C8, counterexample: on a queue that was shut down with `a` Pending, `Get`
returns `a`, an `Add(a)` follows before `Done(a)`, and `Done(a)` does not
re-insert `a` into Pending. -/
theorem readd_lost_after_shutdown :
    ((controllerQueue.Add "a").ShutDown).Get.1 = some ("a", false) ∧
    "a" ∈ (((controllerQueue.Add "a").ShutDown).Get.2.Add "a").processing ∧
    "a" ∉ ((((controllerQueue.Add "a").ShutDown).Get.2.Add "a").Done "a").pending := by
  decide

/-- C8, amended: for every key `k` that `Get` has returned, on a queue that
has not been shut down any number `N ≥ 1` of `Add(k)` calls before the
matching `Done(k)` creates no Pending entry for `k` while it is Processing,
and `Done(k)` then re-inserts `k` into Pending exactly once, at the back, and
clears the dirty mark and the Processing status; with no such `Add`, `Done(k)`
leaves `k` absent from Pending. -/
theorem readd_while_processing (q : Queue) (hwf : q.WF) (k : String) (q1 : Queue)
    (hget : q.Get = (some (k, false), q1)) :
    (q.shuttingDown = false → ∀ N, 1 ≤ N →
      k ∈ ((fun s : Queue => s.Add k)^[N] q1).processing ∧
      k ∉ ((fun s : Queue => s.Add k)^[N] q1).pending ∧
      (((fun s : Queue => s.Add k)^[N] q1).Done k).pending
        = ((fun s : Queue => s.Add k)^[N] q1).pending ++ [k] ∧
      (((fun s : Queue => s.Add k)^[N] q1).Done k).pending.count k = 1 ∧
      k ∉ (((fun s : Queue => s.Add k)^[N] q1).Done k).dirty ∧
      k ∉ (((fun s : Queue => s.Add k)^[N] q1).Done k).processing) ∧
    k ∉ (q1.Done k).pending := by
  obtain ⟨rest, hp, rfl⟩ := Queue.Get_key q q1 k hget
  have hkin : k ∈ q.pending := by simp [hp]
  have hkp : k ∉ q.processing := hwf.pending_processing k hkin
  have hkd : k ∉ q.dirty := fun h => hkp (hwf.dirty_processing k h)
  have hdel : q.isDelayed k = false := hwf.pending_delayed k hkin
  have hrest : k ∉ rest := by
    have := hwf.pending_nodup
    rw [hp] at this
    exact (List.nodup_cons.mp this).1
  refine ⟨fun hshut N hN => ?_, ?_⟩
  · obtain ⟨n, rfl⟩ : ∃ n, N = n + 1 := ⟨N - 1, by omega⟩
    rw [Queue.iterate_Add_processing
      { q with pending := rest, processing := k :: q.processing } k hshut
      (List.mem_cons_self k q.processing) hdel hkd n]
    refine ⟨by simp, hrest, ?_, ?_, ?_, ?_⟩
    · simp [Queue.Done, Queue.insertPending, hrest]
    · simp [Queue.Done, Queue.insertPending, hrest, List.count_eq_zero_of_not_mem hrest]
    · simp [Queue.Done, Queue.insertPending, hrest]
    · simp [Queue.Done, Queue.insertPending, hrest]
  · simp [Queue.Done, hkd, hrest]

/-- Witness for the amended C8: the key `a` taken from the controller's queue
and re-added twice while it is processed. -/
theorem readd_while_processing_witness :
    (controllerQueue.Add "a").WF ∧
    (controllerQueue.Add "a").Get = (some ("a", false), (controllerQueue.Add "a").Get.2) ∧
    ((controllerQueue.Add "a").shuttingDown = false → ∀ N, 1 ≤ N →
      "a" ∈ ((fun s : Queue => s.Add "a")^[N] (controllerQueue.Add "a").Get.2).processing ∧
      "a" ∉ ((fun s : Queue => s.Add "a")^[N] (controllerQueue.Add "a").Get.2).pending ∧
      (((fun s : Queue => s.Add "a")^[N] (controllerQueue.Add "a").Get.2).Done "a").pending
        = ((fun s : Queue => s.Add "a")^[N] (controllerQueue.Add "a").Get.2).pending ++ ["a"] ∧
      (((fun s : Queue => s.Add "a")^[N] (controllerQueue.Add "a").Get.2).Done "a").pending.count
        "a" = 1 ∧
      "a" ∉ (((fun s : Queue => s.Add "a")^[N] (controllerQueue.Add "a").Get.2).Done "a").dirty ∧
      "a" ∉ (((fun s : Queue => s.Add "a")^[N]
        (controllerQueue.Add "a").Get.2).Done "a").processing) ∧
    "a" ∉ ((controllerQueue.Add "a").Get.2.Done "a").pending :=
  have hwf : (controllerQueue.Add "a").WF := by
    rw [Queue.Add_eq_insertPending _ _ (by decide) (by decide) (by decide)]
    exact Queue.WF_insertPending _ controllerQueue_WF _ (by decide) (by decide)
  ⟨hwf, by rfl,
    readd_while_processing (controllerQueue.Add "a") hwf "a" (controllerQueue.Add "a").Get.2
      (by rfl)⟩

/-! ## The work queue: backoff -/

namespace Queue

theorem enter_rest (q : Queue) (key : String) :
    (q.enter key).retries = q.retries ∧
    (q.enter key).shuttingDown = q.shuttingDown ∧
    (q.enter key).limiter = q.limiter := by
  unfold enter
  split
  · split <;> simp
  · exact ⟨(insertPending_rest q key).2.2.2.1, (insertPending_rest q key).2.2.2.2.1,
      (insertPending_rest q key).2.2.2.2.2⟩

theorem foldl_enter_rest (keys : List String) (q : Queue) :
    (keys.foldl enter q).retries = q.retries ∧
    (keys.foldl enter q).shuttingDown = q.shuttingDown ∧
    (keys.foldl enter q).limiter = q.limiter := by
  induction keys generalizing q with
  | nil => simp
  | cons key rest ih =>
    have h1 := ih (q.enter key)
    have h2 := enter_rest q key
    simp only [List.foldl_cons]
    exact ⟨h1.1.trans h2.1, h1.2.1.trans h2.2.1, h1.2.2.trans h2.2.2⟩

/-- A call other than `Forget(k)` and `ShutDown` on a queue that is not shut
down keeps it so, keeps the limiter, and raises the retry counter of `k` by
one exactly when it is an `AddRateLimited(k)`. -/
theorem step_retries (q : Queue) (k : String) (c : QueueCall)
    (hshut : q.shuttingDown = false) (hforget : c ≠ QueueCall.forget k)
    (hdown : c ≠ QueueCall.shutDown) :
    (q.step c).shuttingDown = false ∧
    (q.step c).limiter = q.limiter ∧
    (q.step c).retries k = q.retries k + (if c.isRetryOf k then 1 else 0) := by
  cases c with
  | add key =>
    have h := enter_rest q key
    simp only [step, Add, hshut, Bool.false_eq_true, if_false, QueueCall.isRetryOf]
    split
    · simp [hshut]
    · simp [h.1, h.2.1, h.2.2, hshut]
  | get =>
    simp only [step, Get, QueueCall.isRetryOf]
    split
    · simp [hshut]
    · split <;> simp [hshut]
  | done key =>
    simp only [step, Done, QueueCall.isRetryOf, Bool.false_eq_true, if_false, Nat.add_zero]
    split
    · have h := insertPending_rest
        { q with processing := q.processing.filter (fun held => held != key),
                 dirty := q.dirty.filter (fun marked => marked != key) } key
      exact ⟨h.2.2.2.2.1.trans hshut, h.2.2.2.2.2, by rw [h.2.2.2.1]⟩
    · exact ⟨hshut, rfl, rfl⟩
  | forget key =>
    have hne : k ≠ key := fun h => hforget (by rw [h])
    simp [step, Forget, QueueCall.isRetryOf, hshut, Function.update_noteq hne]
  | addRateLimited key now =>
    by_cases hk : key = k
    · subst hk
      simp [step, AddRateLimited, QueueCall.isRetryOf, hshut]
    · have hne : k ≠ key := fun h => hk h.symm
      simp [step, AddRateLimited, QueueCall.isRetryOf, hshut, hk, Function.update_noteq hne]
  | shutDown => exact absurd rfl hdown
  | fire now =>
    have h := foldl_enter_rest
      ((q.delayed.filter (fun entry => decide (entry.2 ≤ now))).map Prod.fst)
      { q with delayed := q.delayed.filter (fun entry => !decide (entry.2 ≤ now)) }
    simp only [step, fire, QueueCall.isRetryOf, Bool.false_eq_true, if_false, Nat.add_zero]
    exact ⟨h.2.1.trans hshut, h.2.2, by rw [h.1]⟩

theorem run_retries (calls : List QueueCall) (q : Queue) (k : String)
    (hshut : q.shuttingDown = false)
    (hcalls : ∀ c ∈ calls, c ≠ QueueCall.forget k ∧ c ≠ QueueCall.shutDown) :
    (q.run calls).shuttingDown = false ∧
    (q.run calls).limiter = q.limiter ∧
    (q.run calls).retries k = q.retries k + calls.countP (QueueCall.isRetryOf k) := by
  induction calls generalizing q with
  | nil => simp [run, hshut]
  | cons c rest ih =>
    have hc := hcalls c (by simp)
    have hstep := step_retries q k c hshut hc.1 hc.2
    have hrest := ih (q.step c) hstep.1 (fun d hd => hcalls d (by simp [hd]))
    simp only [run, List.foldl_cons] at hrest ⊢
    refine ⟨hrest.1, hrest.2.1.trans hstep.2.1, ?_⟩
    rw [hrest.2.2, hstep.2.2, List.countP_cons]
    omega

theorem fireTime_AddRateLimited (q : Queue) (k : String) (now : Nat)
    (hshut : q.shuttingDown = false) :
    (q.AddRateLimited k now).fireTime k = some (now + q.backoffDelay k) := by
  simp [AddRateLimited, fireTime, hshut]

end Queue

/-- C9, counterexample: on the controller's queue after `ShutDown`, the first
`AddRateLimited(a)` schedules nothing, where the formula gives delay 1. -/
theorem retry_not_scheduled_after_shutdown :
    controllerQueue.ShutDown.retries "a" = 0 ∧
    (controllerQueue.ShutDown.AddRateLimited "a" 0).fireTime "a" = none ∧
    (controllerQueue.ShutDown.AddRateLimited "a" 0).delayed = [] := by
  decide

/-- C9, amended: on a queue that has not been shut down, for every key `k`
and every `n ≥ 0`, the `(n+1)`-th `AddRateLimited(k)` since the retry counter
of `k` was zero, with no `Forget(k)` (and no `ShutDown`) among the calls in
between, schedules `k` with delay exactly
`min(baseDelay * backoffFactor^n, maxDelay)`; the controller's queue has
`baseDelay = 1`, `backoffFactor = 2`, `maxDelay = 1000`; and with `baseDelay =
1`, `backoffFactor = 2`, `maxDelay = 16` the first six delays are
1, 2, 4, 8, 16, 16. -/
theorem backoff_growth (q : Queue) (k : String) (calls : List QueueCall) (now : Nat)
    (hfresh : q.retries k = 0) (hshut : q.shuttingDown = false)
    (hcalls : ∀ c ∈ calls, c ≠ QueueCall.forget k ∧ c ≠ QueueCall.shutDown) :
    ((q.run calls).AddRateLimited k now).fireTime k
      = some (now + min (q.limiter.baseDelay
          * q.limiter.backoffFactor ^ calls.countP (QueueCall.isRetryOf k))
          q.limiter.maxDelay) ∧
    ((controllerQueue.run calls).AddRateLimited k now).fireTime k
      = some (now + min (1 * 2 ^ calls.countP (QueueCall.isRetryOf k)) 1000) ∧
    (NewRateLimitingQueue { baseDelay := 1, backoffFactor := 2, maxDelay := 16 }).consecutiveDelays
      k now 6 = [1, 2, 4, 8, 16, 16] := by
  refine ⟨?_, ?_, ?_⟩
  · have h := Queue.run_retries calls q k hshut hcalls
    rw [Queue.fireTime_AddRateLimited _ k now h.1]
    simp [Queue.backoffDelay, h.2.1, h.2.2, hfresh]
  · have h := Queue.run_retries calls controllerQueue k rfl hcalls
    rw [Queue.fireTime_AddRateLimited _ k now h.1]
    simp only [Queue.backoffDelay, h.2.1, h.2.2]
    simp [controllerQueue, NewRateLimitingQueue, DefaultControllerRateLimiter]
  · simp [Queue.consecutiveDelays, Queue.AddRateLimited, Queue.fireTime, Queue.backoffDelay,
      NewRateLimitingQueue]

/-- Witness for the amended C9: the third retry of `a` on the controller's
queue, with an `Add` of another key in between. -/
theorem backoff_growth_witness :
    controllerQueue.retries "a" = 0 ∧ controllerQueue.shuttingDown = false ∧
    (∀ c ∈ [QueueCall.addRateLimited "a" 0, QueueCall.add "b", QueueCall.addRateLimited "a" 5],
      c ≠ QueueCall.forget "a" ∧ c ≠ QueueCall.shutDown) ∧
    (((controllerQueue.run [QueueCall.addRateLimited "a" 0, QueueCall.add "b",
        QueueCall.addRateLimited "a" 5]).AddRateLimited "a" 9).fireTime "a"
      = some (9 + min (controllerQueue.limiter.baseDelay
          * controllerQueue.limiter.backoffFactor
            ^ [QueueCall.addRateLimited "a" 0, QueueCall.add "b",
                QueueCall.addRateLimited "a" 5].countP (QueueCall.isRetryOf "a"))
          controllerQueue.limiter.maxDelay) ∧
    ((controllerQueue.run [QueueCall.addRateLimited "a" 0, QueueCall.add "b",
        QueueCall.addRateLimited "a" 5]).AddRateLimited "a" 9).fireTime "a"
      = some (9 + min (1 * 2 ^ [QueueCall.addRateLimited "a" 0, QueueCall.add "b",
                QueueCall.addRateLimited "a" 5].countP (QueueCall.isRetryOf "a")) 1000) ∧
    (NewRateLimitingQueue { baseDelay := 1, backoffFactor := 2, maxDelay := 16 }).consecutiveDelays
      "a" 9 6 = [1, 2, 4, 8, 16, 16]) :=
  ⟨by decide, by decide, by decide,
    backoff_growth controllerQueue "a"
      [QueueCall.addRateLimited "a" 0, QueueCall.add "b", QueueCall.addRateLimited "a" 5] 9
      (by decide) (by decide) (by decide)⟩

/-! ## The data-model invariant holds in every state the program reaches -/

namespace Queue

theorem WF_Add (q : Queue) (hwf : q.WF) (key : String) : (q.Add key).WF := by
  unfold Add
  split
  · exact hwf
  · split
    · exact hwf
    · rename_i hdel
      have hdel2 : q.isDelayed key = false := by simpa using hdel
      unfold enter
      split
      · rename_i hproc
        split
        · exact hwf
        · refine ⟨hwf.pending_nodup, hwf.pending_processing, hwf.pending_delayed,
            hwf.processing_delayed, ?_⟩
          intro x hx
          rcases List.mem_cons.mp hx with h | h
          · rw [h]
            exact hproc
          · exact hwf.dirty_processing x h
      · rename_i hproc
        exact WF_insertPending q hwf key hproc hdel2

theorem WF_Get (q : Queue) (hwf : q.WF) : q.Get.2.WF := by
  unfold Get
  cases hp : q.pending with
  | nil =>
    simp only
    split <;> exact hwf
  | cons key rest =>
    have hnd := hwf.pending_nodup
    rw [hp] at hnd
    have hsub : ∀ x ∈ rest, x ∈ q.pending := fun x hx => by simp [hp, hx]
    have hkey : key ∈ q.pending := by simp [hp]
    refine ⟨(List.nodup_cons.mp hnd).2, ?_, ?_, ?_, ?_⟩
    · intro x hx hmem
      rcases List.mem_cons.mp hmem with h | h
      · exact (List.nodup_cons.mp hnd).1 (h ▸ hx)
      · exact hwf.pending_processing x (hsub x hx) h
    · exact fun x hx => hwf.pending_delayed x (hsub x hx)
    · intro x hx
      rcases List.mem_cons.mp hx with h | h
      · rw [h]
        exact hwf.pending_delayed key hkey
      · exact hwf.processing_delayed x h
    · exact fun x hx => List.mem_cons_of_mem key (hwf.dirty_processing x hx)

theorem WF_Done (q : Queue) (hwf : q.WF) (key : String) : (q.Done key).WF := by
  unfold Done
  split
  · rename_i hdirty
    have hmid : WF { q with processing := q.processing.filter (fun held => held != key),
                            dirty := q.dirty.filter (fun marked => marked != key) } := by
      refine ⟨hwf.pending_nodup, ?_, hwf.pending_delayed, ?_, ?_⟩
      · intro x hx hmem
        exact hwf.pending_processing x hx (List.mem_filter.mp hmem).1
      · intro x hx
        exact hwf.processing_delayed x (List.mem_filter.mp hx).1
      · intro x hx
        have h := List.mem_filter.mp hx
        exact List.mem_filter.mpr ⟨hwf.dirty_processing x h.1, h.2⟩
    have hgone : key ∉ q.processing.filter (fun held => held != key) := by
      intro hmem
      simpa using (List.mem_filter.mp hmem).2
    exact WF_insertPending _ hmid key hgone
      (hwf.processing_delayed key (hwf.dirty_processing key hdirty))
  · rename_i hdirty
    refine ⟨hwf.pending_nodup, ?_, hwf.pending_delayed, ?_, ?_⟩
    · intro x hx hmem
      exact hwf.pending_processing x hx (List.mem_filter.mp hmem).1
    · intro x hx
      exact hwf.processing_delayed x (List.mem_filter.mp hx).1
    · intro x hx
      have hne : x ≠ key := fun h => hdirty (h ▸ hx)
      exact List.mem_filter.mpr ⟨hwf.dirty_processing x hx, by simpa using hne⟩

/-- Every state that the calls `main.go` makes can bring the controller's
queue into satisfies the data-model invariant. -/
theorem WF_run_program_calls (calls : List QueueCall)
    (hcalls : ∀ c ∈ calls, c.madeByProgram = true) : (controllerQueue.run calls).WF := by
  have hgen : ∀ (cs : List QueueCall) (q : Queue), q.WF →
      (∀ c ∈ cs, c.madeByProgram = true) → (q.run cs).WF := by
    intro cs
    induction cs with
    | nil => exact fun q hq _ => hq
    | cons c rest ih =>
      intro q hq hcs
      have hc := hcs c (by simp)
      have hstep : (q.step c).WF := by
        cases c with
        | add key => exact WF_Add q hq key
        | get => exact WF_Get q hq
        | done key => exact WF_Done q hq key
        | shutDown => exact ⟨hq.pending_nodup, hq.pending_processing, hq.pending_delayed,
            hq.processing_delayed, hq.dirty_processing⟩
        | forget key => simp [QueueCall.madeByProgram] at hc
        | addRateLimited key now => simp [QueueCall.madeByProgram] at hc
        | fire now => simp [QueueCall.madeByProgram] at hc
      exact ih (q.step c) hstep (fun d hd => hcs d (by simp [hd]))
  exact hgen calls controllerQueue controllerQueue_WF hcalls

end Queue

end AutoPilot
